import Mathlib

/-!
Verification of the `ndarray-rand` crate (`src/ndarray-rand/src/lib.rs`):
random-array constructors (`random`, `random_using`) and the `F32`
precision-adapting distribution wrapper.

Modelling choices (shallow embedding):

* An RNG (`rand::Rng`, external collaborator) is modelled as an explicit
  state of an arbitrary type `σ`, threaded through every draw.
* An independent distribution (`rand::distributions::IndependentSample`)
  is a pure sampling function `σ → T × σ`: from the current RNG state it
  produces one value and the advanced RNG state, keeping no state of its
  own (`ind_sample` takes `&self`).
* A stateful distribution (`rand::distributions::Sample`) threads its own
  value of type `δ` as well: `δ → σ → T × δ × σ` (`sample` takes
  `&mut self`).
* A shape is the list of its axis extents; `usize` is modelled as the
  64-bit index integer of the target platform, so arithmetic is `Nat`
  with an explicit bound `usizeMax = 2 ^ 64 - 1`.
* A panic is modelled as `none`; a normal return as `some`.
* A finite `f64` value is modelled as a rational number (every finite
  double is a rational); the `F32` wrapper's `as f32` cast is modelled by
  `rustAsF32` below, following the Rust reference's semantics for
  float-to-float casts.
-/

namespace NdarrayRand

/-- Bit width of the index integer (`usize`) on the modelled 64-bit platform. -/
def usizeBits : Nat := 64

/-- Largest value representable in `usize`. -/
def usizeMax : Nat := 2 ^ usizeBits - 1

/-- Shape of an n-dimensional array: the ordered list of its axis extents. -/
abbrev Shape := List Nat

/-- Element count of a shape: the product of its axis extents
(left fold starting from 1, an empty shape having one element). -/
def elemCount (shape : Shape) : Nat := shape.foldl (· * ·) 1

/-- Modelled from the spec: the array collaborator's overflow-checked
element-count computation (ndarray's shape size check, code of this
repository not under `src/`). The element count is the product of the axis
extents and is checked against the index integer width: a true product
exceeding `usize::MAX` is an overflow, reported as `none`
("Element-count computation must use overflow-checked multiplication
across all axis extents; if the true product exceeds the maximum
representable index, construction must not proceed"). -/
def size_of_shape_checked (shape : Shape) : Option Nat :=
  if elemCount shape ≤ usizeMax then some (elemCount shape) else none

/-- Sequential fill of `n` element positions in the array's native
iteration order: one call of `f` per position, threading the mutable state
(the RNG captured by the closure) from each draw into the next. -/
def fill {σ T : Type} (f : σ → T × σ) : Nat → σ → List T × σ
  | 0, s => ([], s)
  | n + 1, s =>
    let x := f s
    let rest := fill f n x.2
    (x.1 :: rest.1, rest.2)

/-- Modelled from the spec: ndarray's `from_shape_fn` (code of this
repository not under `src/`). It resolves the shape to an overflow-checked
element count — panicking (`none`) on overflow before any element is
produced — and otherwise fills each element position, in the array's
native iteration order, by one call of `f` per position. -/
def from_shape_fn {σ T : Type} (shape : Shape) (f : σ → T × σ) (s : σ) :
    Option (List T × σ) :=
  match size_of_shape_checked shape with
  | none => none
  | some n => some (fill f n s)

/-- Embedding of `random_using` (src/ndarray-rand/src/lib.rs lines 83-91):
`Self::from_shape_fn(shape, |_| dist.ind_sample(rng))`. The closure
ignores the index pattern and draws one sample from the independent
distribution, mutating the RNG it captured; the final RNG state is
returned alongside the array because the caller retains the RNG. -/
def random_using {σ T : Type} (shape : Shape) (dist : σ → T × σ) (rng : σ) :
    Option (List T × σ) :=
  from_shape_fn shape (fun s => dist s) rng

/-- Embedding of `random` (src/ndarray-rand/src/lib.rs lines 75-81):
`Self::random_using(shape, dist, &mut rand::weak_rng())`. The freshly
obtained, automatically seeded weak RNG is modelled by the explicit
initial state `weakRng`; it is a temporary dropped after the call, so only
the array is returned. -/
def random {σ T : Type} (shape : Shape) (dist : σ → T × σ) (weakRng : σ) :
    Option (List T) :=
  (random_using shape dist weakRng).map Prod.fst

/-- Modelled from the spec, for comparison with `random` as embedded from
the source: "`random(shape, distribution)`: obtains the process-wide
default RNG (lazily initialized, weakly seeded) and delegates to
`random_using`". The obtained default RNG is the explicit `defaultRng`
state. -/
def random_spec {σ T : Type} (shape : Shape) (dist : σ → T × σ) (defaultRng : σ) :
    Option (List T) :=
  (random_using shape dist defaultRng).map Prod.fst

/-- RNG state reached after `n` sequential draws of `dist` from state `s`. -/
def nthState {σ T : Type} (dist : σ → T × σ) : Nat → σ → σ
  | 0, s => s
  | n + 1, s => nthState dist n (dist s).2

/-- Sequential fill over a stateful (`Sample`) distribution: the
distribution's own value of type `δ` is threaded through the draws along
with the RNG state. -/
def fillSample {δ σ T : Type} (g : δ → σ → T × δ × σ) : Nat → δ → σ → List T × δ × σ
  | 0, d, s => ([], d, s)
  | n + 1, d, s =>
    let x := g d s
    let rest := fillSample g n x.2.1 x.2.2
    (x.1 :: rest.1, rest.2)

/-- Builder over a stateful (`Sample`) distribution: `from_shape_fn` with
the distribution value threaded explicitly, to make mutation of the
distribution observable. -/
def from_shape_fn_sample {δ σ T : Type} (shape : Shape) (g : δ → σ → T × δ × σ)
    (d : δ) (s : σ) : Option (List T × δ × σ) :=
  match size_of_shape_checked shape with
  | none => none
  | some n => some (fillSample g n d s)

/-- Use of an independent distribution through the stateful interface:
each draw goes through `ind_sample(&self, rng)`, a shared reference, so
the distribution value is read but never replaced. -/
def ind_sample_of {δ σ T : Type} (dist : δ → σ → T × σ) : δ → σ → T × δ × σ :=
  fun d s => ((dist d s).1, d, (dist d s).2)

/-- Concrete independent distribution over a counter RNG, used to
instantiate the theorems: it returns the current counter and advances it. -/
def stepDist : Nat → Nat × Nat := fun s => (s, s + 1)

/-- Value of type `f32` produced by narrowing a finite `f64`: either a
finite binary32-representable value (modelled as a rational) or an
infinity carrying its sign. -/
inductive F32V where
  | finite (val : ℚ)
  | inf (neg : Bool)
deriving DecidableEq

/-- Round a rational to the nearest integer, ties to even
(IEEE roundTiesToEven). -/
def rndTiesEven (q : ℚ) : ℤ :=
  if q - ⌊q⌋ < 1 / 2 then ⌊q⌋
  else if 1 / 2 < q - ⌊q⌋ then ⌊q⌋ + 1
  else if 2 ∣ ⌊q⌋ then ⌊q⌋ else ⌊q⌋ + 1

/-- Round a rational to an integer toward zero (truncation). -/
def truncInt (q : ℚ) : ℤ := if 0 ≤ q then ⌊q⌋ else ⌈q⌉

/-- Floor of the base-2 logarithm of a natural number, by fuel
(structural recursion so that concrete instances reduce). -/
def log2fuel : Nat → Nat → Nat
  | 0, _ => 0
  | fuel + 1, n => if n ≤ 1 then 0 else log2fuel fuel (n / 2) + 1

/-- Ceiling of the base-2 logarithm of a natural number, by fuel. -/
def clog2fuel : Nat → Nat → Nat
  | 0, _ => 0
  | fuel + 1, n => if n ≤ 1 then 0 else clog2fuel fuel ((n + 1) / 2) + 1

/-- Floor of the base-2 logarithm of `|q|`, for rationals in the binary64
range (fuel 2100 covers exponents up to ±1075). For `1 ≤ |q|` it is the
floored log of `⌊|q|⌋`; for `|q| < 1` it is minus the ceiling log of
`⌈|q|⁻¹⌉`. -/
def qlog2 (q : ℚ) : ℤ :=
  if 1 ≤ |q| then (log2fuel 2100 (⌊|q|⌋.toNat) : ℤ)
  else -(clog2fuel 2100 (⌈|q|⁻¹⌉.toNat) : ℤ)

/-- Unit in the last place of the binary32 grid at magnitude `|q|`:
spacing `2 ^ (e - 23)` where `e` is the exponent of `|q|` clamped below at
`-126` (24-bit significand, subnormal floor at exponent `-126`). -/
def ulp32 (q : ℚ) : ℚ := (2 : ℚ) ^ (max (qlog2 q) (-126) - 23)

/-- Smallest magnitude that binary32 round-to-nearest narrowing takes to
infinity: the midpoint `2 ^ 128 - 2 ^ 103` above the largest finite f32. -/
def f32InfThreshold : ℚ := 2 ^ 128 - 2 ^ 103

/-- Largest finite binary32 value, `(2 - 2 ^ (-23)) * 2 ^ 127`. -/
def f32MaxFinite : ℚ := 2 ^ 128 - 2 ^ 104

/-- Semantics of Rust's `as f32` cast on a finite `f64` value (modelled as
a rational): per the Rust reference, a float-to-float cast produces the
closest representable value, rounding ties to even, and produces the
infinity of the same sign on overflow. -/
def rustAsF32 (q : ℚ) : F32V :=
  if f32InfThreshold ≤ q then .inf false
  else if q ≤ -f32InfThreshold then .inf true
  else .finite (rndTiesEven (q / ulp32 q) * ulp32 q)

/-- Narrowing to the binary32 grid by truncation toward zero, following
the spec's words ("truncating numeric conversion (not rounding)"), for
comparison with the cast the code performs. -/
def truncAsF32 (q : ℚ) : F32V :=
  if f32InfThreshold ≤ q then .inf false
  else if q ≤ -f32InfThreshold then .inf true
  else .finite (truncInt (q / ulp32 q) * ulp32 q)

/-- Embedding of `impl IndependentSample<f32> for F32<S>`
(src/ndarray-rand/src/lib.rs lines 126-136): draw one `f64` from the
inner independent distribution, narrow it with `as f32`
(`self.0.ind_sample(rng) as f32`). -/
def F32ind_sample {σ : Type} (inner : σ → ℚ × σ) : σ → F32V × σ :=
  fun rng => (rustAsF32 (inner rng).1, (inner rng).2)

/-- Embedding of `impl Sample<f32> for F32<S>` (src/ndarray-rand/src/lib.rs
lines 114-124): the stateful variant (`&mut self`), threading the inner
distribution's own value (`self.0.sample(rng) as f32`). -/
def F32sample {δ σ : Type} (inner : δ → σ → ℚ × δ × σ) : δ → σ → F32V × δ × σ :=
  fun d rng => (rustAsF32 (inner d rng).1, (inner d rng).2.1, (inner d rng).2.2)

/-- Concrete inner distribution producing the constant finite `f64` value
`1 + 2 ^ (-24) + 2 ^ (-25)` (exactly representable in binary64), on which
rounding and truncation to binary32 differ. -/
def cDist : Unit → ℚ × Unit := fun u => (1 + 1 / 2 ^ 24 + 1 / 2 ^ 25, u)

/-- Concrete inner distribution producing the constant finite `f64` value
`2 ^ 128`, whose magnitude exceeds the largest finite f32. -/
def bigDist : Unit → ℚ × Unit := fun u => ((2 : ℚ) ^ 128, u)

/-- Filling `n` positions produces the list of the first `n` sequential
draws (the `i`-th element is the sample drawn at the RNG state reached by
the first `i` draws) and leaves the state after `n` draws. -/
theorem fill_eq_range_map {σ T : Type} (f : σ → T × σ) :
    ∀ (n : Nat) (s : σ),
      fill f n s = ((List.range n).map fun i => (f (nthState f i s)).1, nthState f n s)
  | 0, _ => rfl
  | n + 1, s => by
    have ih := fill_eq_range_map f n (f s).2
    simp only [fill, ih, List.range_succ_eq_map, List.map_cons, List.map_map]
    rfl

/-- Closed form of `random_using` in the non-overflowing case. -/
theorem random_using_eq {σ T : Type} (shape : Shape) (dist : σ → T × σ) (rng : σ)
    (h : elemCount shape ≤ usizeMax) :
    random_using shape dist rng
      = some ((List.range (elemCount shape)).map fun i => (dist (nthState dist i rng)).1,
          nthState dist (elemCount shape) rng) := by
  simp only [random_using, from_shape_fn, size_of_shape_checked, if_pos h]
  rw [fill_eq_range_map]

/-- A shape with a zero axis has element count zero. -/
theorem elemCount_of_zero {shape : Shape} (h : 0 ∈ shape) : elemCount shape = 0 := by
  have hp : shape.prod = 0 := List.prod_eq_zero h
  calc elemCount shape = shape.prod := List.prod_eq_foldl.symm
  _ = 0 := hp

/-- Running the stateful-interface builder on an independent distribution
used through `ind_sample` produces the plain fill and never replaces the
distribution value. -/
theorem fillSample_ind {δ σ T : Type} (dist : δ → σ → T × σ) (d : δ) :
    ∀ (n : Nat) (s : σ),
      fillSample (ind_sample_of dist) n d s
        = ((fill (dist d) n s).1, d, (fill (dist d) n s).2)
  | 0, _ => rfl
  | n + 1, s => by
    simp only [fillSample, fill, ind_sample_of, fillSample_ind dist d n]

/-- C1: for every shape whose element count (the product of its axis
extents) is representable in usize, and every independent distribution,
`random(shape, dist)` and `random_using(shape, dist, rng)` return an
array whose length equals the product of the shape's extents. -/
theorem c1_array_length {σ T : Type} (shape : Shape) (dist : σ → T × σ) (rng weakRng : σ)
    (h : elemCount shape ≤ usizeMax) :
    ((random_using shape dist rng).map fun p => p.1.length) = some (elemCount shape)
    ∧ ((random shape dist weakRng).map List.length) = some (elemCount shape) := by
  constructor
  · rw [random_using_eq shape dist rng h]
    simp
  · rw [random, random_using_eq shape dist weakRng h]
    simp

/-- C1 witness: shape `[2, 5]` with the counter distribution gives arrays
of length 10. -/
theorem c1_witness :
    ((random_using [2, 5] stepDist 0).map fun p => p.1.length) = some 10
    ∧ ((random [2, 5] stepDist 3).map List.length) = some 10 :=
  c1_array_length [2, 5] stepDist 0 3 (by decide)

/-- C2: `random_using` called with two RNG instances initialized to the
identical seed and identical initial state produces bit-identical arrays,
for any fixed shape and fixed deterministic independent distribution. -/
theorem c2_reproducible {σ T : Type} (shape : Shape) (dist : σ → T × σ) (rng1 rng2 : σ)
    (h : rng1 = rng2) :
    (random_using shape dist rng1).map Prod.fst
      = (random_using shape dist rng2).map Prod.fst := by
  rw [h]

/-- C2 witness: two runs from the identically seeded state 42 agree. -/
theorem c2_witness :
    (random_using [2, 5] stepDist 42).map Prod.fst
      = (random_using [2, 5] stepDist 42).map Prod.fst :=
  c2_reproducible [2, 5] stepDist 42 42 rfl

/-- C4: for every shape with at least one axis of extent 0, `random` and
`random_using` return an array of length 0, the RNG is untouched, and the
distribution's sampling function is never invoked (the result is the same
for every distribution). -/
theorem c4_zero_extent {σ T : Type} (shape : Shape) (dist dist2 : σ → T × σ)
    (rng weakRng : σ) (h : 0 ∈ shape) :
    random_using shape dist rng = some ([], rng)
    ∧ random shape dist weakRng = some []
    ∧ random_using shape dist rng = random_using shape dist2 rng := by
  have hz : elemCount shape = 0 := elemCount_of_zero h
  have key : ∀ (dist3 : σ → T × σ) (r : σ), random_using shape dist3 r = some ([], r) := by
    intro dist3 r
    have h1 := random_using_eq shape dist3 r (hz ▸ Nat.zero_le _)
    rw [hz] at h1
    simpa [nthState] using h1
  refine ⟨key dist rng, ?_, ?_⟩
  · rw [random, key dist weakRng]
    rfl
  · rw [key dist rng, key dist2 rng]

/-- C4 witness: shape `[3, 0, 2]` yields the empty array, an unchanged
RNG, and the same result for two different distributions. -/
theorem c4_witness :
    random_using [3, 0, 2] stepDist 5 = some ([], 5)
    ∧ random [3, 0, 2] stepDist 5 = some []
    ∧ random_using [3, 0, 2] stepDist 5 = random_using [3, 0, 2] (fun s => (s * s, s + 2)) 5 :=
  c4_zero_extent [3, 0, 2] stepDist (fun s => (s * s, s + 2)) 5 5 (by decide)

/-- C5: for every shape whose true element-count product exceeds
`usize::MAX`, `random` and `random_using` abort construction (modelled as
`none`) before producing any element: no partially constructed array is
observable. -/
theorem c5_overflow_panics {σ T : Type} (shape : Shape) (dist : σ → T × σ)
    (rng weakRng : σ) (h : usizeMax < elemCount shape) :
    random_using shape dist rng = none ∧ random shape dist weakRng = none := by
  have hn : size_of_shape_checked shape = none := by
    rw [size_of_shape_checked, if_neg (by omega)]
  constructor
  · simp [random_using, from_shape_fn, hn]
  · simp [random, random_using, from_shape_fn, hn]

/-- C5 witness: shape `[2 ^ 32, 2 ^ 32]` has true product `2 ^ 64`, which
exceeds `usize::MAX = 2 ^ 64 - 1`; construction panics. -/
theorem c5_witness :
    random_using [4294967296, 4294967296] stepDist 0 = none
    ∧ random [4294967296, 4294967296] stepDist 0 = none :=
  c5_overflow_panics [4294967296, 4294967296] stepDist 0 0 (by decide)

/-- C6: `random(shape, dist)` behaves identically to
`random_using(shape, dist, rng)` called with the freshly obtained,
automatically seeded default weak RNG: the source's `random` coincides
with the spec's description (obtain the default RNG, delegate to
`random_using`) for every shape, distribution and default-RNG state. -/
theorem c6_random_delegates {σ T : Type} (shape : Shape) (dist : σ → T × σ)
    (weakRng : σ) :
    random shape dist weakRng = random_spec shape dist weakRng := rfl

/-- C7: for every shape with representable element count `n`,
`random_using` draws exactly one sample per element position, strictly
sequentially: the array is exactly the list of the first `n` draws, the
`i`-th stored element being the sample drawn at the RNG state reached by
the `i` previous draws, and the final RNG state is the state after all
`n` draws. -/
theorem c7_sequential_fill {σ T : Type} (shape : Shape) (dist : σ → T × σ) (rng : σ)
    (h : elemCount shape ≤ usizeMax) :
    random_using shape dist rng
      = some ((List.range (elemCount shape)).map fun i => (dist (nthState dist i rng)).1,
          nthState dist (elemCount shape) rng) :=
  random_using_eq shape dist rng h

/-- C7 witness: shape `[2, 5]` with the counter distribution starting at 0
stores the ten sequential draws `0..9` and leaves the RNG at state 10. -/
theorem c7_witness :
    random_using [2, 5] stepDist 0 = some ([0, 1, 2, 3, 4, 5, 6, 7, 8, 9], 10) := by
  rw [c7_sequential_fill [2, 5] stepDist 0 (by decide)]
  rfl

/-- C9: `random_using` accepts only the independent sampling variant and
reads the distribution through a shared reference at each draw: running
the builder over the stateful interface with the distribution value
threaded explicitly returns the distribution value unchanged and produces
exactly the array and RNG state of `random_using`. -/
theorem c9_dist_unchanged {δ σ T : Type} (shape : Shape) (dist : δ → σ → T × σ)
    (d : δ) (rng : σ) :
    from_shape_fn_sample shape (ind_sample_of dist) d rng
      = (random_using shape (dist d) rng).map fun p => (p.1, d, p.2) := by
  rw [from_shape_fn_sample, random_using, from_shape_fn]
  cases hsz : size_of_shape_checked shape with
  | none => rfl
  | some n => simp [fillSample_ind]

/-- C10: after `random_using(shape, dist, rng)` returns, the RNG is left
exactly in the state reached by `elemCount shape` sequential draws from
its initial state; for a shape with a zero-extent axis the RNG state is
unchanged. -/
theorem c10_rng_state {σ T : Type} (shape : Shape) (dist : σ → T × σ) (rng : σ)
    (h : elemCount shape ≤ usizeMax) :
    (random_using shape dist rng).map Prod.snd
        = some (nthState dist (elemCount shape) rng)
    ∧ (0 ∈ shape → (random_using shape dist rng).map Prod.snd = some rng) := by
  constructor
  · rw [random_using_eq shape dist rng h]
    rfl
  · intro h0
    rw [random_using_eq shape dist rng h, elemCount_of_zero h0]
    rfl

/-- C10 witness: shape `[3, 0]` leaves the RNG state 7 unchanged. -/
theorem c10_witness : (random_using [3, 0] stepDist 7).map Prod.snd = some 7 :=
  (c10_rng_state [3, 0] stepDist 7 (by decide)).2 (by decide)

/-- Helper: the fuel-based floored base-2 log of 1 is 0. -/
theorem log2fuel_one (fuel : Nat) : log2fuel (fuel + 1) 1 = 0 := by
  simp [log2fuel]

/-- Helper: the binary32 ulp at `1 + 2 ^ (-24) + 2 ^ (-25)` is `2 ^ (-23)`. -/
theorem ulp32_cVal : ulp32 (1 + 1 / 2 ^ 24 + 1 / 2 ^ 25) = (2 : ℚ) ^ (-(23 : ℤ)) := by
  have habs : |(1 + 1 / 2 ^ 24 + 1 / 2 ^ 25 : ℚ)| = 1 + 1 / 2 ^ 24 + 1 / 2 ^ 25 :=
    abs_of_pos (by norm_num)
  have hfl : ⌊(1 + 1 / 2 ^ 24 + 1 / 2 ^ 25 : ℚ)⌋ = 1 := by
    rw [Int.floor_eq_iff]
    norm_num
  have hlog : qlog2 (1 + 1 / 2 ^ 24 + 1 / 2 ^ 25) = 0 := by
    rw [qlog2, habs,
      if_pos (by norm_num : (1 : ℚ) ≤ 1 + 1 / 2 ^ 24 + 1 / 2 ^ 25), hfl]
    have h2 : log2fuel 2100 (Int.toNat 1) = 0 := log2fuel_one 2099
    rw [h2]
    rfl
  rw [ulp32, hlog]
  rw [show max (0 : ℤ) (-126) = 0 by decide]
  norm_num

/-- Helper: scaling `1 + 2 ^ (-24) + 2 ^ (-25)` by the ulp gives the
significand position `8388608 + 3 / 4`, strictly above the tie. -/
theorem cVal_div_ulp :
    (1 + 1 / 2 ^ 24 + 1 / 2 ^ 25 : ℚ) / (2 : ℚ) ^ (-(23 : ℤ)) = 8388608 + 3 / 4 := by
  rw [zpow_neg, div_inv_eq_mul]
  norm_num

/-- Helper: the `as f32` cast rounds `1 + 2 ^ (-24) + 2 ^ (-25)` up to the
next binary32 value `(2 ^ 23 + 1) * 2 ^ (-23)`. -/
theorem rustAsF32_cVal :
    rustAsF32 (1 + 1 / 2 ^ 24 + 1 / 2 ^ 25)
      = F32V.finite (8388609 * (2 : ℚ) ^ (-(23 : ℤ))) := by
  have hnot1 : ¬ f32InfThreshold ≤ (1 + 1 / 2 ^ 24 + 1 / 2 ^ 25 : ℚ) := by
    rw [f32InfThreshold]
    norm_num
  have hnot2 : ¬ (1 + 1 / 2 ^ 24 + 1 / 2 ^ 25 : ℚ) ≤ -f32InfThreshold := by
    rw [f32InfThreshold]
    norm_num
  rw [rustAsF32, if_neg hnot1, if_neg hnot2, ulp32_cVal, cVal_div_ulp]
  have hfl : ⌊(8388608 + 3 / 4 : ℚ)⌋ = 8388608 := by
    rw [Int.floor_eq_iff]
    norm_num
  have hrnd : rndTiesEven (8388608 + 3 / 4 : ℚ) = 8388609 := by
    rw [rndTiesEven, hfl, if_neg (by norm_num), if_pos (by norm_num)]
    norm_num
  rw [hrnd]
  norm_num

/-- Helper: truncating `1 + 2 ^ (-24) + 2 ^ (-25)` toward zero on the
binary32 grid gives `2 ^ 23 * 2 ^ (-23)`. -/
theorem truncAsF32_cVal :
    truncAsF32 (1 + 1 / 2 ^ 24 + 1 / 2 ^ 25)
      = F32V.finite (8388608 * (2 : ℚ) ^ (-(23 : ℤ))) := by
  have hnot1 : ¬ f32InfThreshold ≤ (1 + 1 / 2 ^ 24 + 1 / 2 ^ 25 : ℚ) := by
    rw [f32InfThreshold]
    norm_num
  have hnot2 : ¬ (1 + 1 / 2 ^ 24 + 1 / 2 ^ 25 : ℚ) ≤ -f32InfThreshold := by
    rw [f32InfThreshold]
    norm_num
  rw [truncAsF32, if_neg hnot1, if_neg hnot2, ulp32_cVal, cVal_div_ulp]
  have hfl : ⌊(8388608 + 3 / 4 : ℚ)⌋ = 8388608 := by
    rw [Int.floor_eq_iff]
    norm_num
  have htr : truncInt (8388608 + 3 / 4 : ℚ) = 8388608 := by
    rw [truncInt, if_pos (by norm_num), hfl]
  rw [htr]
  norm_num

/-- C3 counterexample: for the inner distribution producing the finite
f64 value `1 + 2 ^ (-24) + 2 ^ (-25)`, the value produced by the adapter
`F32` is not the f32 truncating narrowing of the inner value: the
`as f32` cast rounds up to `1 + 2 ^ (-23)`, while truncation gives `1`.
So the cast is not truncating. -/
theorem c3_counterexample :
    (F32ind_sample cDist ()).1 ≠ truncAsF32 (cDist ()).1 := by
  show rustAsF32 (cDist ()).1 ≠ truncAsF32 (cDist ()).1
  have hne : (8388609 : ℚ) * (2 : ℚ) ^ (-(23 : ℤ)) ≠ 8388608 * (2 : ℚ) ^ (-(23 : ℤ)) := by
    rw [zpow_neg]
    norm_num
  show rustAsF32 (1 + 1 / 2 ^ 24 + 1 / 2 ^ 25) ≠ truncAsF32 (1 + 1 / 2 ^ 24 + 1 / 2 ^ 25)
  rw [rustAsF32_cVal, truncAsF32_cVal]
  exact fun hcontra => hne (F32V.finite.inj hcontra)

/-- C3 (amended): for every inner f64 distribution and every RNG state,
each value produced by sampling the adapter `F32` (via either `sample` or
`ind_sample`) equals the `as f32` narrowing — rounding to the nearest
binary32 value, ties to even, overflowing to infinity; not truncation —
of the f64 value the inner distribution would have produced from the same
RNG state, and the RNG state is advanced exactly as the inner
distribution advances it (the same number of RNG outputs is consumed). -/
theorem c3_adapter_narrowing {δ σ : Type} (inner : σ → ℚ × σ)
    (innerS : δ → σ → ℚ × δ × σ) (d : δ) (rng : σ) :
    F32ind_sample inner rng = (rustAsF32 (inner rng).1, (inner rng).2)
    ∧ F32sample innerS d rng
        = (rustAsF32 (innerS d rng).1, (innerS d rng).2.1, (innerS d rng).2.2) :=
  ⟨rfl, rfl⟩

/-- C8: for every finite f64 value produced by the inner distribution,
sampling through the adapter yields a defined f32 value (no failure
mode): a magnitude at or beyond the overflow threshold narrows to the
infinity of the corresponding sign, and a magnitude up to the largest
finite f32 narrows to a finite value. -/
theorem c8_narrowing_total {σ : Type} (inner : σ → ℚ × σ) (rng : σ) :
    (F32ind_sample inner rng).1 = rustAsF32 (inner rng).1
    ∧ (f32InfThreshold ≤ (inner rng).1 → (F32ind_sample inner rng).1 = F32V.inf false)
    ∧ ((inner rng).1 ≤ -f32InfThreshold → (F32ind_sample inner rng).1 = F32V.inf true)
    ∧ (|(inner rng).1| ≤ f32MaxFinite →
        ∃ m : ℚ, (F32ind_sample inner rng).1 = F32V.finite m) := by
  have hpos : (0 : ℚ) < f32InfThreshold := by
    rw [f32InfThreshold]
    norm_num
  refine ⟨rfl, ?_, ?_, ?_⟩
  · intro h
    show rustAsF32 (inner rng).1 = F32V.inf false
    rw [rustAsF32, if_pos h]
  · intro h
    show rustAsF32 (inner rng).1 = F32V.inf true
    have hneg : ¬ f32InfThreshold ≤ (inner rng).1 := by
      intro hc
      linarith
    rw [rustAsF32, if_neg hneg, if_pos h]
  · intro h
    have hlt : f32MaxFinite < f32InfThreshold := by
      rw [f32MaxFinite, f32InfThreshold]
      norm_num
    obtain ⟨hlo, hhi⟩ := abs_le.mp h
    have h1 : ¬ f32InfThreshold ≤ (inner rng).1 := by
      intro hc
      linarith
    have h2 : ¬ (inner rng).1 ≤ -f32InfThreshold := by
      intro hc
      linarith
    refine ⟨(rndTiesEven ((inner rng).1 / ulp32 (inner rng).1) : ℚ) * ulp32 (inner rng).1, ?_⟩
    show rustAsF32 (inner rng).1 = _
    rw [rustAsF32, if_neg h1, if_neg h2]

/-- C8 witness: the out-of-range magnitude `2 ^ 128` narrows to positive
infinity. -/
theorem c8_witness : (F32ind_sample bigDist ()).1 = F32V.inf false := by
  refine (c8_narrowing_total bigDist ()).2.1 ?_
  norm_num [bigDist, f32InfThreshold]

end NdarrayRand
